import Mathlib

/-!
# Verification of the pastel-inbox mailbox synchronization layer

Shallow embedding of the client-side mailbox logic:
* `src/lib/api.ts` (`apiFetch`, `ApiError`),
* `src/hooks/useMailApi.ts` (second hook variant, lines 248-649: `getPermissionMode`,
  `fetchMessages`, `fetchMessagesByEmail`, `deleteMessage`, `clearInbox`,
  `bulkDeleteMessages`),
* `src/hooks/useRecentEmails.ts` (`addRecentEmail`),
* the smart-refresh scheduler (`useSmartRefresh`).

Network effects are modelled by passing each operation an explicit outcome for the
HTTP requests it issues; React hook state is modelled as an explicit state record
that each operation transforms.
-/

namespace PastelInbox

/-! ## Data model (`src/types/mail.ts`) -/

/-- `PermissionMode` from `src/types/mail.ts`. -/
inductive PermissionMode where
  | ALL_INBOXES
  | ADDRESS_ONLY
  | SELF_ONLY
deriving DecidableEq, Repr

/-- `DomainPermission` from `src/types/mail.ts`. -/
structure DomainPermission where
  domain : String
  mode : PermissionMode
deriving DecidableEq, Repr

/-- `MessagePreview` from `src/types/mail.ts`.  Optional fields are `Option`s;
`from` is a Lean keyword, so the field is named `from_`. -/
structure MessagePreview where
  id : String
  from_ : String := ""
  sender_name : Option String := none
  sender_email : Option String := none
  subject : String := ""
  preview : String := ""
  receivedAt : String := ""
  inboxId : Option String := none
  domain : Option String := none
deriving DecidableEq, Repr

/-- `MessageContent` from `src/types/mail.ts`. -/
structure MessageContent where
  text : Option String := none
  html : Option String := none
  raw : Option String := none
deriving DecidableEq, Repr

/-- `Attachment` from `src/types/mail.ts`. -/
structure Attachment where
  id : String
  filename : String
  contentType : String
  size : Nat
deriving DecidableEq, Repr

/-- Full `Message` from `src/types/mail.ts`; `to` may be a string or a string
array (it is named `to_` here since `to` is reserved). -/
structure Message where
  id : String
  inboxId : String := ""
  from_ : String := ""
  sender_name : Option String := none
  sender_email : Option String := none
  to_ : Option (String ⊕ List String) := none
  subject : String := ""
  receivedAt : String := ""
  content : Option MessageContent := none
  html : Option String := none
  text : Option String := none
  raw : Option String := none
  is_html : Option Bool := none
  content_html : Option String := none
  content_text : Option String := none
  htmlBody : Option String := none
  bodyHtml : Option String := none
  attachments : Option (List Attachment) := none
deriving DecidableEq, Repr

/-! ## JSON values and the request coordinator (`src/lib/api.ts`)

`apiFetch` parses the response body with `JSON.parse`; parsed values are modelled
by the `Json` type below (mutually inductive so that all recursion is structural).
The parser itself is a browser builtin and is passed in as a parameter
`parse : String → Option Json` (`none` models a `JSON.parse` exception). -/

mutual
inductive Json where
  | null : Json
  | bool (b : Bool) : Json
  | num (n : Int) : Json
  | str (s : String) : Json
  | arr (elems : JsonList) : Json
  | obj (fields : JsonObj) : Json
inductive JsonList where
  | nil : JsonList
  | cons (hd : Json) (tl : JsonList) : JsonList
inductive JsonObj where
  | nil : JsonObj
  | cons (key : String) (val : Json) (tl : JsonObj) : JsonObj
end

mutual
/-- `JSON.stringify` over the `Json` model. -/
def Json.stringify : Json → String
  | Json.null => "null"
  | Json.bool b => cond b "true" "false"
  | Json.num n => toString n
  | Json.str s => "\"" ++ s ++ "\""
  | Json.arr xs => "[" ++ Json.stringifyArr xs ++ "]"
  | Json.obj fs => "\x7b" ++ Json.stringifyObj fs ++ "\x7d"
def Json.stringifyArr : JsonList → String
  | JsonList.nil => ""
  | JsonList.cons x JsonList.nil => Json.stringify x
  | JsonList.cons x xs => Json.stringify x ++ "," ++ Json.stringifyArr xs
def Json.stringifyObj : JsonObj → String
  | JsonObj.nil => ""
  | JsonObj.cons k v JsonObj.nil => "\"" ++ k ++ "\":" ++ Json.stringify v
  | JsonObj.cons k v fs => "\"" ++ k ++ "\":" ++ Json.stringify v ++ "," ++ Json.stringifyObj fs
end

/-- Property access `data?.key` on a parsed JSON value: a field lookup on objects,
`undefined` (`none`) on everything else. -/
def Json.getField : Json → String → Option Json
  | Json.obj fs, key => go fs key
  | _, _ => none
where go : JsonObj → String → Option Json
  | JsonObj.nil, _ => none
  | JsonObj.cons k v tl, key => if k = key then some v else go tl key

/-- JavaScript truthiness of a JSON value. -/
def Json.isTruthy : Json → Bool
  | Json.null => false
  | Json.bool b => b
  | Json.num n => n != 0
  | Json.str s => s != ""
  | Json.arr _ => true
  | Json.obj _ => true

/-- `typeof errorMessage === 'string' ? errorMessage : JSON.stringify(errorMessage)`. -/
def Json.toMessageString (j : Json) : String :=
  match j with
  | Json.str s => s
  | _ => j.stringify

/-- `ApiError` from `src/lib/api.ts`.  A transport failure (`fetch` rejecting)
propagates a `TypeError`, which has a message but no `status`; hence
`status : Option Nat`. -/
structure ApiError where
  message : String
  status : Option Nat
deriving DecidableEq, Repr

/-- The outcome of the underlying `fetch` call: either the transport fails
(promise rejection) or a response with an HTTP status, status text and raw body
text arrives. -/
inductive Transport where
  | netFail (message : String)
  | response (status : Nat) (statusText : String) (body : String)
deriving DecidableEq, Repr

/-- `Response.ok`: status in the inclusive range 200-299. -/
def statusOk (status : Nat) : Bool :=
  200 ≤ status && status ≤ 299

/-- `data?.error || data?.message || res.statusText || 'Request failed'`, then
stringified if the chosen value is not a string (`src/lib/api.ts` line 47). -/
def errorMessageOf (data : Json) (statusText : String) : String :=
  match ((data.getField "error").toList ++ (data.getField "message").toList).find?
      Json.isTruthy with
  | some j => j.toMessageString
  | none => if statusText != "" then statusText else "Request failed"

/-- `apiFetch` from `src/lib/api.ts` lines 8-56, as a function of the transport
outcome.  An empty body is not parsed at all (`text ? JSON.parse(text) : {}`);
a parse failure throws with the response's status; a non-2xx status throws with
the extracted error message and the status; otherwise the parsed body is
returned. -/
def apiFetch (parse : String → Option Json) : Transport → Except ApiError Json
  | Transport.netFail msg => Except.error ⟨msg, none⟩
  | Transport.response status statusText body =>
    let parsed : Option Json := if body = "" then some (Json.obj JsonObj.nil) else parse body
    match parsed with
    | none => Except.error ⟨"Invalid JSON response: " ++ body.take 200, some status⟩
    | some data =>
      if statusOk status then Except.ok data
      else Except.error ⟨errorMessageOf data statusText, some status⟩

/-! ## Hook state and operations (`src/hooks/useMailApi.ts`, lines 248-649)

The hook's React state cells that the verified operations read or write are
gathered into `MailState`.  The permission list is fetched once per session and
is passed to the operations that read it as a parameter `permissions`.  Each
HTTP request's outcome is an explicit argument. -/

/-- The mutable hook state touched by the list/selection/mutation operations. -/
structure MailState where
  messages : List MessagePreview
  selectedMessage : Option Message
  selectedDomain : String
  selectedEmail : String
  error : Option String
deriving DecidableEq, Repr

/-- Outcome of one `apiFetch` call for a message-list request.
* `ok msgs`: resolved with `res.ok && res.data` truthy; `msgs` is
  `res.data.messages || []`.
* `softFail`: resolved 2xx but `res.ok`/`res.data` falsy (no state change).
* `abort`: the request was superseded (`AbortError`).
* `err status msg`: `apiFetch` threw an `ApiError` (status `none` for a raw
  transport failure). -/
inductive FetchOutcome where
  | ok (messages : List MessagePreview)
  | softFail
  | abort
  | err (status : Option Nat) (message : String)
deriving DecidableEq, Repr

/-- Observable side effects of one list-fetch call: the request URL if a network
request was issued, whether the `loading.messages` flag was raised, and whether
an error toast was shown. -/
structure FetchTrace where
  request : Option String
  loadingStarted : Bool
  errorToast : Bool
deriving DecidableEq, Repr

/-- `getPermissionMode` (`useMailApi.ts` lines 270-273):
`permissions.find(p => p.domain === domain)?.mode || null`. -/
def getPermissionMode (permissions : List DomainPermission) (domain : String) :
    Option PermissionMode :=
  (permissions.find? (fun p => p.domain == domain)).map DomainPermission.mode

/-- `fetchMessages` (`useMailApi.ts` lines 319-381).  Guard order follows the
source: an empty selected domain, or `ADDRESS_ONLY` mode with no selected
email, clears the list and returns before any loading transition or network
request.  Otherwise `setError(null)` runs, the scoped URL is requested, and the
outcome is applied: success replaces the list; an abort changes nothing
further; an error sets a status-specific error message (plus a toast for 403)
and clears the list.  (`encodeURIComponent` is not modelled; URLs are plain
concatenations.) -/
def fetchMessages (permissions : List DomainPermission) (outcome : FetchOutcome)
    (st : MailState) : MailState × FetchTrace :=
  if st.selectedDomain = "" then
    ({ st with messages := [] }, ⟨none, false, false⟩)
  else
    let mode := getPermissionMode permissions st.selectedDomain
    if mode = some PermissionMode.ADDRESS_ONLY ∧ st.selectedEmail = "" then
      ({ st with messages := [] }, ⟨none, false, false⟩)
    else
      let st1 : MailState := { st with error := none }
      let url : String :=
        if mode = some PermissionMode.ADDRESS_ONLY ∧ st.selectedEmail ≠ "" then
          "/api/v1/messages?email=" ++ st.selectedEmail
        else
          "/api/v1/messages?domain=" ++ st.selectedDomain
      match outcome with
      | FetchOutcome.ok msgs => ({ st1 with messages := msgs }, ⟨some url, true, false⟩)
      | FetchOutcome.softFail => (st1, ⟨some url, true, false⟩)
      | FetchOutcome.abort => (st1, ⟨some url, true, false⟩)
      | FetchOutcome.err status msg =>
        let errMsg : String :=
          if status = some 403 then
            "Access denied. You may not have permission for this resource."
          else if status = some 401 then
            "Session expired. Please log in again."
          else if msg = "" then "Failed to fetch messages" else msg
        ({ st1 with error := some errMsg, messages := [] },
          ⟨some url, true, status = some 403⟩)

/-- `fetchMessagesByEmail` (`useMailApi.ts` lines 383-431).  Returns the updated
state, the promised count, and the trace.  A 404 error is handled as an empty
success: the list is cleared, the email is recorded as selected, 0 is returned
and no error or toast is produced; 403 and other errors set an error message
and a toast. -/
def fetchMessagesByEmail (outcome : FetchOutcome) (st : MailState) (email : String) :
    MailState × Nat × FetchTrace :=
  let st1 : MailState := { st with error := none }
  let url : String := "/api/v1/messages?email=" ++ email
  match outcome with
  | FetchOutcome.ok msgs =>
    ({ st1 with messages := msgs, selectedEmail := email }, msgs.length,
      ⟨some url, true, false⟩)
  | FetchOutcome.softFail => (st1, 0, ⟨some url, true, false⟩)
  | FetchOutcome.abort => (st1, 0, ⟨some url, true, false⟩)
  | FetchOutcome.err status msg =>
    if status = some 403 then
      ({ st1 with error := some "Access denied. You may not have permission for this email." },
        0, ⟨some url, true, true⟩)
    else if status = some 404 then
      ({ st1 with messages := [], selectedEmail := email }, 0, ⟨some url, true, false⟩)
    else
      ({ st1 with error := some (if msg = "" then "Failed to fetch messages" else msg) },
        0, ⟨some url, true, true⟩)

/-- JavaScript `Array.prototype.findIndex`: the first index satisfying `p`, or
`-1` when none does (`List.findIdx` returns the length in that case). -/
def findIndexJS (p : α → Bool) (l : List α) : Int :=
  if l.findIdx p < l.length then (l.findIdx p : Int) else -1

/-- JavaScript array indexing `l[i]`: `undefined` (`none`) outside `[0, length)`. -/
def jsIndex (l : List α) (i : Int) : Option α :=
  if 0 ≤ i ∧ i < l.length then l.get? i.toNat else none

/-- Outcome of the `GET /messages/:id` fetch used to select the successor after
a delete: resolved with a message, resolved but falsy (`res.ok`/`res.data`), or
thrown. -/
inductive MsgFetchOutcome where
  | ok (msg : Message)
  | softFail
  | threw
deriving DecidableEq, Repr

/-- `deleteMessage` (`useMailApi.ts` lines 479-522).  `deleteOk` is whether the
DELETE request resolved with a truthy `res.ok` (any other outcome throws into
the catch block, which returns `false` without touching state).  On success the
message is filtered out of the list, and, if the new list is non-empty, the
message at `idx` (or the new last index when `idx` is out of range) is fetched
via `fetchNext` and selected.  When the id was absent, `idx = -1` and
`newMessages[-1]` is `undefined`, so reading `.id` throws: the catch block
returns `false` after the (contents-preserving) list update. -/
def deleteMessage (deleteOk : Bool) (fetchNext : String → MsgFetchOutcome)
    (st : MailState) (messageId : String) : MailState × Bool :=
  if deleteOk then
    let idx : Int := findIndexJS (fun m => m.id == messageId) st.messages
    let newMessages := st.messages.filter (fun m => m.id != messageId)
    let st1 : MailState := { st with messages := newMessages }
    if newMessages.length > 0 then
      let nextIdx : Int := if idx < (newMessages.length : Int) then idx
        else (newMessages.length : Int) - 1
      match jsIndex newMessages nextIdx with
      | none => (st1, false)
      | some nextMessage =>
        match fetchNext nextMessage.id with
        | MsgFetchOutcome.ok msg => ({ st1 with selectedMessage := some msg }, true)
        | MsgFetchOutcome.softFail => (st1, true)
        | MsgFetchOutcome.threw => (st1, false)
    else
      ({ st1 with selectedMessage := none }, true)
  else
    (st, false)

/-- `clearInbox` (`useMailApi.ts` lines 524-560).  One DELETE per loaded
message is fired and settled; `deleteOk id` is whether the request for `id`
fulfilled.  Full success clears list and selection; partial success re-runs
`fetchMessages` (with `refetchOutcome`) instead of a local removal; zero
successes over a non-empty list throws into the catch block and returns
`false`. -/
def clearInbox (deleteOk : String → Bool) (permissions : List DomainPermission)
    (refetchOutcome : FetchOutcome) (st : MailState) : MailState × Bool :=
  let successCount := (st.messages.filter (fun m => deleteOk m.id)).length
  if successCount = st.messages.length then
    ({ st with messages := [], selectedMessage := none }, true)
  else if 0 < successCount then
    ((fetchMessages permissions refetchOutcome st).1, true)
  else
    (st, false)

/-- `bulkDeleteMessages` (`useMailApi.ts` lines 562-604).  One DELETE per id is
fired and settled; `failed` counts the rejected requests.  The local update
builds `deletedIds = new Set(messageIds)` — every *requested* id, not only the
fulfilled ones — and removes all of them from the list; the selection is
cleared when its id is in the batch.  Returns the state together with
`{total, failed}`. -/
def bulkDeleteMessages (deleteOk : String → Bool) (st : MailState)
    (messageIds : List String) : MailState × Nat × Nat :=
  let failed := (messageIds.filter (fun id => !(deleteOk id))).length
  let newMessages := st.messages.filter (fun m => !(messageIds.contains m.id))
  let newSelected : Option Message :=
    match st.selectedMessage with
    | some m => if messageIds.contains m.id then none else some m
    | none => none
  ({ st with messages := newMessages, selectedMessage := newSelected },
    messageIds.length, failed)

/-! ## Recent emails (`src/hooks/useRecentEmails.ts`) -/

/-- `RecentEmail` from `src/types/mail.ts` (`lastAccessed` is `Date.now()`). -/
structure RecentEmail where
  email : String
  messageCount : Nat
  lastAccessed : Nat
deriving DecidableEq, Repr

/-- One `addRecentEmail(domain, email, count)` update of a single domain's list
(`useRecentEmails.ts` lines 29-50): case-insensitively drop any existing entry
for `email`, prepend the new lowercased entry, and truncate to `MAX_RECENT = 10`.
The JavaScript builtin `String.prototype.toLowerCase` (full Unicode lowering,
unlike Lean's ASCII-only `String.toLower`) is modelled by the parameter `low`. -/
def addRecentEmail (low : String → String) (l : List RecentEmail) (email : String)
    (messageCount : Nat) (now : Nat) : List RecentEmail :=
  let filtered := l.filter (fun r => low r.email != low email)
  (⟨low email, messageCount, now⟩ :: filtered).take 10

/-- A whole sequence of `addRecentEmail` calls for one domain, starting from the
empty list (each call is `(email, messageCount, now)`). -/
def runRecentAdds (low : String → String) (calls : List (String × Nat × Nat)) :
    List RecentEmail :=
  calls.foldl (fun l c => addRecentEmail low l c.1 c.2.1 c.2.2) []

/-! ## Smart refresh scheduler (`useSmartRefresh`)

The polling `useEffect` (its dependencies are `autoRefreshEnabled`,
`isUserActive`, `onRefresh` and `intervalMs`) is modelled as a transition
system.  Live `setInterval` timers are a list of distinct ids so that "at most
one timer live" is a real property; `ref` is `pollIntervalRef.current`.  React
runs the previous effect's cleanup (`clearInterval` on the ref) and then the
effect body, which clears the ref's timer again and starts a new timer exactly
when refreshing is enabled and the user is idle. -/

/-- Scheduler state: live timer ids, the `pollIntervalRef` cell, a fresh-id
counter, and the two flags the effect reads. -/
structure Sched where
  timers : List Nat
  ref : Option Nat
  nextId : Nat
  enabled : Bool
  active : Bool
deriving DecidableEq, Repr

/-- `clearInterval(pollIntervalRef.current)` guarded by the null check: it only
removes the referenced timer from the live-timer table. -/
def Sched.clearRefTimer (s : Sched) : Sched :=
  { s with timers := match s.ref with
      | some id => s.timers.erase id
      | none => s.timers }

/-- The polling effect body (`useSmartRefresh` lines 156-174, part_015): clear
the ref's timer, then `setInterval` a fresh timer exactly when
`autoRefreshEnabled && !isUserActive`.  (The ref is not nulled when no timer is
started, as in the source.) -/
def Sched.effectBody (s : Sched) : Sched :=
  if s.clearRefTimer.enabled && !s.clearRefTimer.active then
    { s.clearRefTimer with
      timers := s.clearRefTimer.timers ++ [s.clearRefTimer.nextId]
      ref := some s.clearRefTimer.nextId
      nextId := s.clearRefTimer.nextId + 1 }
  else
    s.clearRefTimer

/-- A re-render with changed effect dependencies: React runs the previous
effect's cleanup, then the new effect body. -/
def Sched.rerun (s : Sched) : Sched :=
  s.clearRefTimer.effectBody

/-- The events that re-fire the polling effect: toggling the auto-refresh
switch, the idle tracker changing `isUserActive`, and a change of the refresh
callback or interval (same deps array, same effect body). -/
inductive SchedEvent where
  | toggle
  | setActive (b : Bool)
  | depChange
deriving DecidableEq, Repr

/-- One scheduler step: update the flag the event changes, then re-run the
effect (cleanup + body). -/
def Sched.step (s : Sched) : SchedEvent → Sched
  | SchedEvent.toggle => Sched.rerun { s with enabled := !s.enabled }
  | SchedEvent.setActive b => Sched.rerun { s with active := b }
  | SchedEvent.depChange => Sched.rerun s

/-- The scheduler state after mounting (initial effect run from an empty timer
table) and processing a sequence of events.  `enabled0` is the persisted
auto-refresh flag. -/
def Sched.run (enabled0 : Bool) (events : List SchedEvent) : Sched :=
  events.foldl Sched.step
    (Sched.effectBody ⟨[], none, 0, enabled0, false⟩)

/-! ## Spec-side definitions and concrete fixtures -/

/-- The successor rule exactly as the spec words it: "the message at the same
index in the new list, or the new last item if the index is now out of range,
or null if the list is empty".  Stated over the post-delete list `newList` and
the deleted message's former index `formerIdx`. -/
def specSuccessor (newList : List MessagePreview) (formerIdx : Nat) :
    Option MessagePreview :=
  newList.get? (min formerIdx (newList.length - 1))

/-- Fixture: preview with id `"a"`. -/
def msgA : MessagePreview := { id := "a" }

/-- Fixture: preview with id `"b"`. -/
def msgB : MessagePreview := { id := "b" }

/-- Fixture: preview with id `"c"`. -/
def msgC : MessagePreview := { id := "c" }

/-- Fixture: a populated hook state scoped to domain `shop.com`. -/
def stABC : MailState :=
  { messages := [msgA, msgB, msgC]
    selectedMessage := none
    selectedDomain := "shop.com"
    selectedEmail := ""
    error := none }

/-- Fixture: `shop.com` granted `ALL_INBOXES`. -/
def permsAllInboxes : List DomainPermission :=
  [⟨"shop.com", PermissionMode.ALL_INBOXES⟩]

/-- Fixture: `shop.com` granted `ADDRESS_ONLY`. -/
def permsAddressOnly : List DomainPermission :=
  [⟨"shop.com", PermissionMode.ADDRESS_ONLY⟩]

/-- Fixture: a JSON parser stand-in that is honest about the empty string
(`JSON.parse("")` throws) and accepts any non-empty body. -/
def parse0 : String → Option Json :=
  fun s => if s = "" then none else some (Json.str s)

/-- Fixture: a backend that answers every `GET /messages/:id` with a full
message carrying the requested id. -/
def fetchOkById : String → MsgFetchOutcome :=
  fun i => MsgFetchOutcome.ok { id := i }

/-- Scheduler invariant: every live timer id is the one `pollIntervalRef`
holds, and at most one timer is live. -/
def SchedInv (s : Sched) : Prop :=
  (∀ id ∈ s.timers, s.ref = some id) ∧ s.timers.length ≤ 1

/-- Post-effect scheduler characterization: the invariant holds and a timer is
live exactly when refreshing is enabled and the user is idle. -/
def SchedOk (s : Sched) : Prop :=
  SchedInv s ∧ (s.timers ≠ [] ↔ (s.enabled = true ∧ s.active = false))

/-! ## Theorems -/

theorem schedInv_clearRefTimer_timers (s : Sched) (h : SchedInv s) :
    s.clearRefTimer.timers = [] := by
  obtain ⟨h1, h2⟩ := h
  cases href : s.ref with
  | none =>
    cases hl : s.timers with
    | nil => simp [Sched.clearRefTimer, href, hl]
    | cons a t =>
      have := h1 a (by simp [hl])
      rw [href] at this
      exact absurd this (by simp)
  | some r =>
    cases hl : s.timers with
    | nil => simp [Sched.clearRefTimer, href, hl]
    | cons a t =>
      have ha := h1 a (by simp [hl])
      rw [href] at ha
      have hra : r = a := by simpa using ha
      have ht : t = [] := by
        cases t with
        | nil => rfl
        | cons b t2 => rw [hl] at h2; simp at h2
      subst ht hra
      simp [Sched.clearRefTimer, href, hl]

theorem schedOk_effectBody (s : Sched) (h : SchedInv s) : SchedOk s.effectBody := by
  have hnil := schedInv_clearRefTimer_timers s h
  unfold Sched.effectBody
  by_cases hc : s.clearRefTimer.enabled && !s.clearRefTimer.active
  · rw [if_pos hc]
    simp only [Bool.and_eq_true, Bool.not_eq_true'] at hc
    refine ⟨⟨?_, ?_⟩, ?_⟩
    · intro id hid
      rw [hnil] at hid
      simp at hid
      simp [hid]
    · simp [hnil]
    · rw [hnil]
      simp [hc.1, hc.2]
  · rw [if_neg hc]
    refine ⟨⟨?_, ?_⟩, ?_⟩
    · intro id hid
      rw [hnil] at hid
      simp at hid
    · simp [hnil]
    · rw [hnil]
      simp only [ne_eq, not_true_eq_false, false_iff, not_and]
      intro he ha
      exact hc (by simp [he, ha])

theorem schedOk_rerun (s : Sched) (h : SchedInv s) : SchedOk s.rerun := by
  unfold Sched.rerun
  apply schedOk_effectBody
  have hnil := schedInv_clearRefTimer_timers s h
  exact ⟨fun id hid => by rw [hnil] at hid; simp at hid, by simp [hnil]⟩

theorem schedOk_step (s : Sched) (e : SchedEvent) (h : SchedInv s) :
    SchedOk (s.step e) := by
  cases e with
  | toggle => exact schedOk_rerun _ ⟨fun id hid => h.1 id hid, h.2⟩
  | setActive b => exact schedOk_rerun _ ⟨fun id hid => h.1 id hid, h.2⟩
  | depChange => exact schedOk_rerun _ ⟨fun id hid => h.1 id hid, h.2⟩

theorem schedOk_run (enabled0 : Bool) (events : List SchedEvent) :
    SchedOk (Sched.run enabled0 events) := by
  have hfold : ∀ (es : List SchedEvent) (s : Sched), SchedOk s →
      SchedOk (es.foldl Sched.step s) := by
    intro es
    induction es with
    | nil => intro s hs; exact hs
    | cons e es ih =>
      intro s hs
      simp only [List.foldl_cons]
      exact ih _ (schedOk_step s e hs.1)
  exact hfold events _ (schedOk_effectBody ⟨[], none, 0, enabled0, false⟩
    ⟨fun id hid => by simp at hid, by simp⟩)

/-- C8: in the smart-refresh scheduler, after mounting and any sequence of
enable-toggles, activity changes and dependency changes, at most one polling
timer is live, and a timer is live exactly when refreshing is enabled and the
user is idle (so toggling off and back on never layers timers). -/
theorem smartRefresh_at_most_one_timer (enabled0 : Bool) (events : List SchedEvent) :
    (Sched.run enabled0 events).timers.length ≤ 1 ∧
    ((Sched.run enabled0 events).timers ≠ [] ↔
      ((Sched.run enabled0 events).enabled = true ∧
        (Sched.run enabled0 events).active = false)) :=
  ⟨(schedOk_run enabled0 events).1.2, (schedOk_run enabled0 events).2⟩

/-- C5: a 404 on `fetchMessagesByEmail(email)` is treated as a successful empty
result — the local list becomes empty, `email` is recorded as selected, the
returned count is 0, no error state is set and no error toast is shown. -/
theorem fetchMessagesByEmail_404_empty_success (st : MailState) (email msg : String) :
    (fetchMessagesByEmail (FetchOutcome.err (some 404) msg) st email).1.messages = [] ∧
    (fetchMessagesByEmail (FetchOutcome.err (some 404) msg) st email).1.selectedEmail = email ∧
    (fetchMessagesByEmail (FetchOutcome.err (some 404) msg) st email).2.1 = 0 ∧
    (fetchMessagesByEmail (FetchOutcome.err (some 404) msg) st email).1.error = none ∧
    (fetchMessagesByEmail (FetchOutcome.err (some 404) msg) st email).2.2.errorToast = false := by
  simp [fetchMessagesByEmail]

/-- C6: when the selected domain is in `ADDRESS_ONLY` mode and no email has
been supplied, `fetchMessages` issues no network request, raises no loading
flag, and leaves the list empty; once an email is supplied (for a non-empty
selected domain) a request is issued. -/
theorem fetchMessages_address_only_idle_without_email
    (permissions : List DomainPermission) (outcome : FetchOutcome) (st : MailState)
    (hmode : getPermissionMode permissions st.selectedDomain =
      some PermissionMode.ADDRESS_ONLY) :
    (st.selectedEmail = "" →
      (fetchMessages permissions outcome st).1.messages = [] ∧
      (fetchMessages permissions outcome st).2.request = none ∧
      (fetchMessages permissions outcome st).2.loadingStarted = false) ∧
    (st.selectedEmail ≠ "" → st.selectedDomain ≠ "" →
      ((fetchMessages permissions outcome st).2.request).isSome = true) := by
  constructor
  · intro hemail
    by_cases hdom : st.selectedDomain = ""
    · simp [fetchMessages, hdom]
    · simp [fetchMessages, hdom, hmode, hemail]
  · intro hemail hdom
    cases outcome <;> simp [fetchMessages, hdom, hmode, hemail]

/-- C6 witness: `shop.com` in `ADDRESS_ONLY` mode with no selected email is
idle; the same scope with an email selected issues a request. -/
theorem fetchMessages_address_only_idle_without_email_witness :
    ((fetchMessages permsAddressOnly FetchOutcome.softFail stABC).1.messages = [] ∧
      (fetchMessages permsAddressOnly FetchOutcome.softFail stABC).2.request = none ∧
      (fetchMessages permsAddressOnly FetchOutcome.softFail stABC).2.loadingStarted
        = false) ∧
    ((fetchMessages permsAddressOnly FetchOutcome.softFail
      { stABC with selectedEmail := "promo@shop.com" }).2.request).isSome = true := by
  constructor
  · exact (fetchMessages_address_only_idle_without_email permsAddressOnly
      FetchOutcome.softFail stABC (by decide)).1 rfl
  · exact (fetchMessages_address_only_idle_without_email permsAddressOnly
      FetchOutcome.softFail { stABC with selectedEmail := "promo@shop.com" }
      (by decide)).2 (by decide) (by decide)

/-- C2 counterexample: a background `fetchMessages` that errors (HTTP 500) on a
populated list does **not** leave the list untouched — the error path clears it. -/
theorem fetchMessages_error_clears_populated_list_cex :
    stABC.messages ≠ [] ∧
    (fetchMessages permsAllInboxes (FetchOutcome.err (some 500) "boom") stABC).1.messages
      = [] := by
  constructor
  · decide
  · rfl

/-- C2 amended: whenever `fetchMessages` actually fetches (non-empty domain and
not the `ADDRESS_ONLY`-without-email guard) and the request fails with a
non-abort error, the error is surfaced in the error state and the local message
list is cleared to empty (it is not preserved). -/
theorem fetchMessages_error_surfaces_and_clears
    (permissions : List DomainPermission) (st : MailState) (status : Option Nat)
    (msg : String) (hdom : st.selectedDomain ≠ "")
    (hguard : ¬(getPermissionMode permissions st.selectedDomain =
      some PermissionMode.ADDRESS_ONLY ∧ st.selectedEmail = "")) :
    (fetchMessages permissions (FetchOutcome.err status msg) st).1.messages = [] ∧
    ((fetchMessages permissions (FetchOutcome.err status msg) st).1.error).isSome
      = true := by
  simp only [fetchMessages, if_neg hdom, if_neg hguard]
  simp

/-- C2 amended witness at a concrete populated state. -/
theorem fetchMessages_error_surfaces_and_clears_witness :
    (fetchMessages permsAllInboxes (FetchOutcome.err (some 500) "boom") stABC).1.messages
      = [] ∧
    ((fetchMessages permsAllInboxes (FetchOutcome.err (some 500) "boom")
      stABC).1.error).isSome = true :=
  fetchMessages_error_surfaces_and_clears permsAllInboxes stABC (some 500) "boom"
    (by decide) (by decide)

/-- C1 counterexample: `bulkDelete(["a","b","c"])` where only `"b"` fails does
report `{total := 3, failed := 1}`, but it does **not** retain `"b"` in the
local list — every requested id is removed, so the list ends empty. -/
theorem bulkDelete_failed_id_removed_cex :
    (fun i => i != "b") "b" = false ∧
    (bulkDeleteMessages (fun i => i != "b") stABC ["a", "b", "c"]).2 = (3, 1) ∧
    (bulkDeleteMessages (fun i => i != "b") stABC ["a", "b", "c"]).1.messages = [] ∧
    ¬ msgB ∈ (bulkDeleteMessages (fun i => i != "b") stABC ["a", "b", "c"]).1.messages := by
  refine ⟨rfl, rfl, rfl, ?_⟩
  decide

/-- C1 amended: `bulkDeleteMessages(ids)` returns `{total := ids.length,
failed := number of rejected requests}`, removes from the local list **every**
message whose id is in `ids` — including those whose delete failed — and clears
the selection exactly when its id is in the batch. -/
theorem bulkDelete_removes_all_requested (deleteOk : String → Bool) (st : MailState)
    (ids : List String) :
    (bulkDeleteMessages deleteOk st ids).2.1 = ids.length ∧
    (bulkDeleteMessages deleteOk st ids).2.2 = ids.countP (fun i => !(deleteOk i)) ∧
    (∀ m : MessagePreview,
      m ∈ (bulkDeleteMessages deleteOk st ids).1.messages ↔
        m ∈ st.messages ∧ ¬ m.id ∈ ids) ∧
    (bulkDeleteMessages deleteOk st ids).1.selectedMessage =
      st.selectedMessage.filter (fun m => !(ids.contains m.id)) := by
  refine ⟨rfl, ?_, ?_, ?_⟩
  · simp [bulkDeleteMessages, List.countP_eq_length_filter]
  · intro m
    simp [bulkDeleteMessages, List.mem_filter]
  · cases hsel : st.selectedMessage <;>
      simp [bulkDeleteMessages, hsel, Option.filter]

/-- C10: a successful DELETE for an id that is absent from a non-empty local
list returns `false` and leaves both the list contents and the selection
unchanged (the successor lookup at index `-1` throws into the catch block). -/
theorem deleteMessage_absent_id_noop (deleteOk : Bool)
    (fetchNext : String → MsgFetchOutcome) (st : MailState) (messageId : String)
    (habsent : ∀ m ∈ st.messages, m.id ≠ messageId) (hne : st.messages ≠ []) :
    (deleteMessage deleteOk fetchNext st messageId).2 = false ∧
    (deleteMessage deleteOk fetchNext st messageId).1.messages = st.messages ∧
    (deleteMessage deleteOk fetchNext st messageId).1.selectedMessage
      = st.selectedMessage := by
  cases deleteOk with
  | false => exact ⟨rfl, rfl, rfl⟩
  | true =>
    have hfilter : st.messages.filter (fun m => m.id != messageId) = st.messages :=
      List.filter_eq_self.mpr (fun m hm => by
        simpa [bne_iff_ne] using habsent m hm)
    have hidx : findIndexJS (fun m => m.id == messageId) st.messages = -1 := by
      have heq : st.messages.findIdx (fun m => m.id == messageId) = st.messages.length :=
        List.findIdx_eq_length_of_false (fun m hm => by
          simpa [beq_eq_false_iff_ne] using habsent m hm)
      simp [findIndexJS, heq]
    have hlen : 0 < st.messages.length := List.length_pos.mpr hne
    have hjs : jsIndex st.messages (-1 : Int) = none := by
      simp [jsIndex]
    have hneg : (-1 : Int) < (st.messages.length : Int) := by
      omega
    simp only [deleteMessage, hidx, hfilter, if_true, if_pos hlen, if_pos hneg, hjs]
    exact ⟨trivial, trivial, trivial⟩

/-- C10 witness: deleting the absent id `"z"` from the three-message state
succeeds on the wire but changes nothing locally and reports `false`. -/
theorem deleteMessage_absent_id_noop_witness :
    (deleteMessage true fetchOkById stABC "z").2 = false ∧
    (deleteMessage true fetchOkById stABC "z").1.messages = stABC.messages ∧
    (deleteMessage true fetchOkById stABC "z").1.selectedMessage
      = stABC.selectedMessage :=
  deleteMessage_absent_id_noop true fetchOkById stABC "z" (by decide) (by decide)

/-- C3: after a successful `deleteMessage(id)` for an id present in the list
(with the backend serving the successor fetch), the call reports success, the
id is removed from the list, and the new selection is exactly the spec's
successor: the message at the deleted message's former index in the new list,
the new last item if that index is out of range, and `null` when the new list
is empty. -/
theorem deleteMessage_successor_selection (fetchNext : String → MsgFetchOutcome)
    (st : MailState) (messageId : String)
    (hfound : st.messages.findIdx (fun m => m.id == messageId) < st.messages.length)
    (hfetch : ∀ i, ∃ m, fetchNext i = MsgFetchOutcome.ok m ∧ m.id = i) :
    (deleteMessage true fetchNext st messageId).2 = true ∧
    (deleteMessage true fetchNext st messageId).1.messages =
      st.messages.filter (fun m => m.id != messageId) ∧
    ((deleteMessage true fetchNext st messageId).1.selectedMessage).map Message.id =
      (specSuccessor (st.messages.filter (fun m => m.id != messageId))
        (st.messages.findIdx (fun m => m.id == messageId))).map MessagePreview.id ∧
    (st.messages.filter (fun m => m.id != messageId) = [] →
      (deleteMessage true fetchNext st messageId).1.selectedMessage = none) := by
  set idx0 := st.messages.findIdx (fun m => m.id == messageId) with hidx0
  set L := st.messages.filter (fun m => m.id != messageId) with hL
  have hidx : findIndexJS (fun m => m.id == messageId) st.messages = (idx0 : Int) := by
    simp [findIndexJS, ← hidx0, if_pos hfound]
  by_cases hnil : L = []
  · have hlen0 : L.length = 0 := by simp [hnil]
    simp only [deleteMessage, if_true, hidx, ← hL, hlen0, gt_iff_lt, Nat.lt_irrefl,
      if_false]
    refine ⟨trivial, trivial, ?_, ?_⟩
    · simp [specSuccessor, hnil]
    · intro _
      trivial
  · have hlen : 0 < L.length := List.length_pos.mpr hnil
    set k : Nat := min idx0 (L.length - 1) with hk
    have hklt : k < L.length := by omega
    obtain ⟨nm, hnm⟩ : ∃ nm, L.get? k = some nm := ⟨L.get ⟨k, hklt⟩, List.get?_eq_get hklt⟩
    have hjs : jsIndex L (if (idx0 : Int) < (L.length : Int) then (idx0 : Int)
        else (L.length : Int) - 1) = some nm := by
      by_cases hcase : (idx0 : Int) < (L.length : Int)
      · have hkeq : k = idx0 := by omega
        rw [if_pos hcase]
        have : (0 : Int) ≤ (idx0 : Int) ∧ (idx0 : Int) < L.length := ⟨by omega, hcase⟩
        simp only [jsIndex, if_pos this, Int.toNat_natCast]
        rw [← hkeq]
        exact hnm
      · have hkeq : k = L.length - 1 := by omega
        rw [if_neg hcase]
        have hc : (0 : Int) ≤ (L.length : Int) - 1 ∧ (L.length : Int) - 1 < L.length := by
          omega
        have htn : ((L.length : Int) - 1).toNat = L.length - 1 := by omega
        simp only [jsIndex, if_pos hc, htn]
        rw [← hkeq]
        exact hnm
    have hnm2 : L[k]? = some nm := by
      simpa [List.get?_eq_getElem?] using hnm
    obtain ⟨m, hm, hmid⟩ := hfetch nm.id
    simp only [deleteMessage, if_true, hidx, ← hL, gt_iff_lt, if_pos hlen, hjs, hm]
    refine ⟨trivial, trivial, ?_, fun habs => absurd habs hnil⟩
    simp [specSuccessor, ← hk, hnm2, hmid]

/-- C3 witness: deleting `"b"` from `[a, b, c]` selects the message now at the
former index, namely `"c"`. -/
theorem deleteMessage_successor_selection_witness :
    (deleteMessage true fetchOkById stABC "b").2 = true ∧
    ((deleteMessage true fetchOkById stABC "b").1.selectedMessage).map Message.id
      = some "c" := by
  have h := deleteMessage_successor_selection fetchOkById stABC "b" (by decide)
    (fun i => ⟨{ id := i }, rfl, rfl⟩)
  refine ⟨h.1, h.2.2.1.trans ?_⟩
  decide

/-- C4: `clearInbox()` over the loaded messages: full success clears both the
list and the selection; partial success re-runs `fetchMessages` (server truth)
instead of a partial local removal; total failure over a non-empty list reports
failure and changes nothing. -/
theorem clearInbox_outcomes (deleteOk : String → Bool)
    (permissions : List DomainPermission) (refetch : FetchOutcome) (st : MailState) :
    ((∀ m ∈ st.messages, deleteOk m.id = true) →
      clearInbox deleteOk permissions refetch st =
        ({ st with messages := [], selectedMessage := none }, true)) ∧
    ((∃ m ∈ st.messages, deleteOk m.id = true) →
      (∃ m ∈ st.messages, deleteOk m.id = false) →
      (clearInbox deleteOk permissions refetch st).1 =
        (fetchMessages permissions refetch st).1 ∧
      (clearInbox deleteOk permissions refetch st).2 = true) ∧
    (st.messages ≠ [] → (∀ m ∈ st.messages, deleteOk m.id = false) →
      clearInbox deleteOk permissions refetch st = (st, false)) := by
  refine ⟨?_, ?_, ?_⟩
  · intro hall
    have hself : st.messages.filter (fun m => deleteOk m.id) = st.messages :=
      List.filter_eq_self.mpr hall
    simp [clearInbox, hself]
  · intro hsome hfail
    have hlt : (st.messages.filter (fun m => deleteOk m.id)).length
        < st.messages.length := by
      have hne : st.messages.filter (fun m => deleteOk m.id) ≠ st.messages := by
        intro heq
        obtain ⟨m, hm, hmf⟩ := hfail
        have := (List.filter_eq_self.mp heq) m hm
        simp [hmf] at this
      have hle : (st.messages.filter (fun m => deleteOk m.id)).length
          ≤ st.messages.length := List.length_filter_le _ _
      rcases Nat.lt_or_ge (st.messages.filter (fun m => deleteOk m.id)).length
          st.messages.length with h | h
      · exact h
      · exact absurd (List.filter_length_eq_length.mp (Nat.le_antisymm hle h)
          |> List.filter_eq_self.mpr) hne
    have hpos : 0 < (st.messages.filter (fun m => deleteOk m.id)).length := by
      obtain ⟨m, hm, hmt⟩ := hsome
      have : m ∈ st.messages.filter (fun m => deleteOk m.id) :=
        List.mem_filter.mpr ⟨hm, hmt⟩
      exact List.length_pos.mpr (fun hnil => by simp [hnil] at this)
    have hne : (st.messages.filter (fun m => deleteOk m.id)).length
        ≠ st.messages.length := Nat.ne_of_lt hlt
    simp [clearInbox, hne, hpos]
  · intro hne hall
    have hnil : st.messages.filter (fun m => deleteOk m.id) = [] :=
      List.filter_eq_nil_iff.mpr (fun m hm => by simp [hall m hm])
    have hlen : st.messages.length ≠ 0 := by
      simpa [List.length_eq_zero] using hne
    have h0 : ¬((0 : Nat) = st.messages.length) := fun h => hlen h.symm
    simp [clearInbox, hnil, h0]

/-- C4 witness: full success over `[a, b, c]` clears list and selection. -/
theorem clearInbox_outcomes_witness :
    clearInbox (fun _ => true) permsAllInboxes FetchOutcome.softFail stABC =
      ({ stABC with messages := [], selectedMessage := none }, true) :=
  (clearInbox_outcomes (fun _ => true) permsAllInboxes FetchOutcome.softFail
    stABC).1 (fun _ _ => rfl)

/-- C7 counterexample: a 2xx response whose body is the empty string — which is
not parseable JSON (`JSON.parse("")` throws, and the modelled parser rejects
it) — does not make `apiFetch` throw: it returns the empty object normally. -/
theorem apiFetch_unparseable_empty_body_ok :
    parse0 "" = none ∧
    apiFetch parse0 (Transport.response 200 "OK" "") = Except.ok (Json.obj JsonObj.nil) := by
  constructor
  · rfl
  · rfl

/-- C7 amended: `apiFetch` classification with the empty-body convention made
explicit.  A transport failure throws with the message and no status; every
error thrown for a received response carries that response's HTTP status; a
non-2xx status always throws (never returns normally); a *non-empty* body that
fails to parse throws with the status; a 2xx response returns the parsed body,
an empty 2xx body being returned as the empty object rather than rejected. -/
theorem apiFetch_classification (parse : String → Option Json) (status : Nat)
    (statusText body : String) :
    (∀ msg, apiFetch parse (Transport.netFail msg) = Except.error ⟨msg, none⟩) ∧
    (∀ e, apiFetch parse (Transport.response status statusText body) = Except.error e →
      e.status = some status) ∧
    (statusOk status = false →
      ∃ e, apiFetch parse (Transport.response status statusText body) = Except.error e ∧
        e.status = some status) ∧
    (body ≠ "" → parse body = none →
      apiFetch parse (Transport.response status statusText body) =
        Except.error ⟨"Invalid JSON response: " ++ body.take 200, some status⟩) ∧
    (statusOk status = true → ∀ d, parse body = some d → body ≠ "" →
      apiFetch parse (Transport.response status statusText body) = Except.ok d) ∧
    (statusOk status = true → body = "" →
      apiFetch parse (Transport.response status statusText body) =
        Except.ok (Json.obj JsonObj.nil)) := by
  refine ⟨fun msg => rfl, ?_, ?_, ?_, ?_, ?_⟩
  · intro e he
    by_cases hbody : body = ""
    · simp only [apiFetch, hbody, if_pos rfl] at he
      by_cases hok : statusOk status
      · simp [hok] at he
      · simp only [Bool.not_eq_true] at hok
        simp [hok] at he
        simp [← he]
    · simp only [apiFetch, if_neg hbody] at he
      cases hparse : parse body with
      | none =>
        simp [hparse] at he
        simp [← he]
      | some d =>
        simp only [hparse] at he
        by_cases hok : statusOk status
        · simp [hok] at he
        · simp only [Bool.not_eq_true] at hok
          simp [hok] at he
          simp [← he]
  · intro hok
    by_cases hbody : body = ""
    · refine ⟨⟨errorMessageOf (Json.obj JsonObj.nil) statusText, some status⟩, ?_, rfl⟩
      simp [apiFetch, hbody, hok]
    · cases hparse : parse body with
      | none =>
        refine ⟨⟨"Invalid JSON response: " ++ body.take 200, some status⟩, ?_, rfl⟩
        simp [apiFetch, hbody, hparse]
      | some d =>
        refine ⟨⟨errorMessageOf d statusText, some status⟩, ?_, rfl⟩
        simp [apiFetch, hbody, hparse, hok]
  · intro hbody hparse
    simp [apiFetch, hbody, hparse]
  · intro hok d hparse hbody
    simp [apiFetch, hbody, hparse, hok]
  · intro hok hbody
    simp [apiFetch, hbody, hok]

/-- C7 amended witness: a 404 with a (parseable) body throws an error carrying
status 404. -/
theorem apiFetch_classification_witness :
    ∃ e, apiFetch parse0 (Transport.response 404 "Not Found" "x") = Except.error e ∧
      e.status = some 404 :=
  (apiFetch_classification parse0 404 "Not Found" "x").2.2.1 (by decide)

theorem addRecentEmail_pairwise (low : String → String)
    (hlow : ∀ s, low (low s) = low s) (l : List RecentEmail) (e : String) (c n : Nat)
    (h : l.Pairwise (fun a b => low a.email ≠ low b.email)) :
    (addRecentEmail low l e c n).Pairwise (fun a b => low a.email ≠ low b.email) := by
  unfold addRecentEmail
  apply List.Pairwise.sublist (List.take_sublist _ _)
  constructor
  · intro r hr
    have hne : low r.email ≠ low e := by
      simpa [bne_iff_ne] using (List.mem_filter.mp hr).2
    show low (low e) ≠ low r.email
    rw [hlow]
    exact fun heq => hne heq.symm
  · exact h.sublist (List.filter_sublist _)

theorem addRecentEmail_length_le (low : String → String) (l : List RecentEmail)
    (e : String) (c n : Nat) : (addRecentEmail low l e c n).length ≤ 10 := by
  unfold addRecentEmail
  simp [List.length_take_le]

theorem addRecentEmail_head (low : String → String) (l : List RecentEmail)
    (e : String) (c n : Nat) :
    (addRecentEmail low l e c n).head? = some ⟨low e, c, n⟩ := by
  unfold addRecentEmail
  rfl

theorem runRecentAdds_concat (low : String → String)
    (calls : List (String × Nat × Nat)) (x : String × Nat × Nat) :
    runRecentAdds low (calls ++ [x]) =
      addRecentEmail low (runRecentAdds low calls) x.1 x.2.1 x.2.2 := by
  simp [runRecentAdds, List.foldl_append]

theorem recent_fold_inv (low : String → String) (hlow : ∀ s, low (low s) = low s)
    (calls : List (String × Nat × Nat)) :
    ∀ (l : List RecentEmail), l.Pairwise (fun a b => low a.email ≠ low b.email) →
      l.length ≤ 10 →
      ((calls.foldl (fun l c => addRecentEmail low l c.1 c.2.1 c.2.2) l).Pairwise
          (fun a b => low a.email ≠ low b.email) ∧
        (calls.foldl (fun l c => addRecentEmail low l c.1 c.2.1 c.2.2) l).length ≤ 10) := by
  induction calls with
  | nil => intro l hp hl; exact ⟨hp, hl⟩
  | cons c cs ih =>
    intro l hp _
    simp only [List.foldl_cons]
    exact ih _ (addRecentEmail_pairwise low hlow l c.1 c.2.1 c.2.2 hp)
      (addRecentEmail_length_le low l c.1 c.2.1 c.2.2)

/-- C9: under any sequence of `addRecentEmail` calls for a domain (starting
from an empty history), the recent-emails list holds at most 10 entries, no two
entries have case-insensitively equal addresses, and the most recently added
email (lowercased, with its count and timestamp) sits at the front.  `low`
models the JavaScript `toLowerCase` builtin; the only fact used about it is
idempotence. -/
theorem recentEmails_invariants (low : String → String)
    (hlow : ∀ s, low (low s) = low s) (calls : List (String × Nat × Nat)) :
    (runRecentAdds low calls).length ≤ 10 ∧
    (runRecentAdds low calls).Pairwise (fun a b => low a.email ≠ low b.email) ∧
    (∀ e c n, (runRecentAdds low (calls ++ [(e, c, n)])).head? = some ⟨low e, c, n⟩) := by
  have h := recent_fold_inv low hlow calls [] (List.Pairwise.nil) (by simp)
  refine ⟨h.2, h.1, ?_⟩
  intro e c n
  rw [runRecentAdds_concat]
  exact addRecentEmail_head low _ e c n

/-- C9 witness at a concrete (idempotent) lowering function and call sequence. -/
theorem recentEmails_invariants_witness :
    (runRecentAdds (fun s => s) [("a@x.com", 1, 2)]).length ≤ 10 ∧
    (runRecentAdds (fun s => s) [("a@x.com", 1, 2)]).Pairwise
      (fun a b => a.email ≠ b.email) ∧
    (runRecentAdds (fun s => s) ([("a@x.com", 1, 2)] ++ [("B@y.com", 3, 4)])).head?
      = some ⟨"B@y.com", 3, 4⟩ := by
  have h := recentEmails_invariants (fun s => s) (fun _ => rfl) [("a@x.com", 1, 2)]
  exact ⟨h.1, h.2.1, h.2.2 "B@y.com" 3 4⟩

end PastelInbox
